import Mathlib

/-!
Verification development for the multi-user client-server messaging system
(ChatServer in C: `server.c` and `storage.c`).

The server keeps a singly-linked list of `client_session_t` nodes
(`clients_head`) guarded by one mutex (`clients_lock`).  A node carries the
socket, the username buffer, and an `authenticated` flag.  Sessions are linked
into the list by `add_client` right after `accept`, before any `AUTH` command
is processed; all registry observations (`find_client_by_name`,
`notify_user_list`, the shutdown broadcast) filter on the `authenticated`
flag.

We embed the list as `List Session`, pointer identity as a numeric `sid`, and
C strings as `List Char`.  Each C critical section (one
`pthread_mutex_lock(&clients_lock)` ... `unlock` region) becomes one atomic
Lean function, so an interleaving of critical sections is a sequence of these
functions.  The persistence layer (`storage.c`, SQLite backend) is embedded
as an append-ordered table of rows with strictly increasing ids, with
`ORDER BY created_at ASC` realized as a stable sort over scan (insertion)
order; a fallible insert is modelled by an explicit success flag.
-/

namespace ChatServer

/-- Constant `MAX_USERNAME` from `server.c`. -/
def MAX_USERNAME : Nat := 32

/-- One `client_session_t` node.  `sid` stands for the node's identity
(the pointer value); the socket handle and thread id are irrelevant to the
claims and omitted. -/
structure Session where
  sid : Nat
  username : List Char
  authenticated : Bool
deriving DecidableEq

/-- Function `find_client_by_name`: walk the list, return the first node that is
authenticated and whose username matches. -/
def find_client_by_name (clients : List Session) (u : List Char) : Option Session :=
  clients.find? (fun s => s.authenticated && s.username == u)

/-- Function `username_available`: no authenticated node carries the name. -/
def username_available (clients : List Session) (u : List Char) : Bool :=
  (find_client_by_name clients u).isNone

/-- Function `add_client`: push the freshly accepted session at the head of the list
(under `clients_lock`). -/
def add_client (s : Session) (clients : List Session) : List Session :=
  s :: clients

/-- Function `remove_client`: unlink the node (pointer comparison; here by `sid`). -/
def remove_client (sid : Nat) (clients : List Session) : List Session :=
  clients.eraseP (fun s => s.sid == sid)

/-- The `AUTH` critical section of `client_worker`
(`lock; available = username_available(u); if (available) { strncpy(username);
authenticated = true; } unlock`): one atomic step.  Returns the new list and
`true` for `OK Authenticated`, `false` for `ERROR Username taken`. -/
def authenticate (clients : List Session) (sid : Nat) (u : List Char) :
    List Session × Bool :=
  if username_available clients u then
    (clients.map (fun s =>
      if s.sid == sid then { s with username := u, authenticated := true } else s),
     true)
  else
    (clients, false)

/-- A sequence of interleaved `AUTH` critical sections for the same username:
since each is atomic, an interleaving is a sequence.  Returns the final list
and the per-attempt results in order. -/
def runAuths (u : List Char) : List Nat → List Session → List Session × List Bool
  | [], clients => (clients, [])
  | sid :: rest, clients =>
    let step := authenticate clients sid u
    let tail := runAuths u rest step.1
    (tail.1, step.2 :: tail.2)

/-- All registry states passed through while running the attempts, the
initial and final ones included. -/
def runAuthsStates (u : List Char) : List Nat → List Session → List (List Session)
  | [], clients => [clients]
  | sid :: rest, clients => clients :: runAuthsStates u rest (authenticate clients sid u).1

/-- Number of authenticated sessions carrying username `u`. -/
def authCount (clients : List Session) (u : List Char) : Nat :=
  clients.countP (fun s => s.authenticated && s.username == u)

theorem username_available_iff (clients : List Session) (u : List Char) :
    username_available clients u = true ↔
      ∀ s ∈ clients, ¬(s.authenticated = true ∧ s.username = u) := by
  simp [username_available, find_client_by_name, Option.isNone_iff_eq_none,
    List.find?_eq_none]

theorem username_available_eq_false (clients : List Session) (u : List Char) :
    username_available clients u = false ↔
      ∃ s ∈ clients, s.authenticated = true ∧ s.username = u := by
  rw [← Bool.not_eq_true, ← not_iff_not, not_not, username_available_iff]
  push_neg
  simp

theorem authCount_eq_zero (clients : List Session) (u : List Char) :
    authCount clients u = 0 ↔ username_available clients u = true := by
  simp [authCount, List.countP_eq_zero, username_available_iff]

/-- Updating other fields never changes the stored `sid`s. -/
theorem authenticate_map_sid (clients : List Session) (sid : Nat) (u : List Char) :
    (authenticate clients sid u).1.map Session.sid = clients.map Session.sid := by
  unfold authenticate
  by_cases h : username_available clients u
  · simp only [h, if_true, List.map_map]
    apply List.map_congr_left
    intro s _
    by_cases hs : s.sid == sid <;> simp [hs, Function.comp]
  · simp [h]

/-- A failed attempt leaves the registry untouched. -/
theorem authenticate_unavailable (clients : List Session) (sid : Nat) (u : List Char)
    (h : username_available clients u = false) :
    authenticate clients sid u = (clients, false) := by
  simp [authenticate, h]

/-- Once the name is taken, every later attempt in the sequence fails and the
registry stays as it is. -/
theorem runAuths_taken (u : List Char) (sids : List Nat) (clients : List Session)
    (h : username_available clients u = false) :
    runAuths u sids clients = (clients, List.replicate sids.length false) := by
  induction sids with
  | nil => simp [runAuths]
  | cons sid rest ih =>
    simp only [runAuths, authenticate_unavailable clients sid u h]
    simp [ih, List.replicate_succ]

/-- After a successful attempt by a session that is really in the list, the
name is taken. -/
theorem authenticate_success_taken (clients : List Session) (sid : Nat) (u : List Char)
    (hmem : sid ∈ clients.map Session.sid)
    (hava : username_available clients u = true) :
    username_available (authenticate clients sid u).1 u = false := by
  obtain ⟨s, hs, hsid⟩ := List.mem_map.mp hmem
  rw [username_available_eq_false]
  refine ⟨{ s with username := u, authenticated := true }, ?_, by simp, by simp⟩
  unfold authenticate
  simp only [hava, if_true]
  have : ({ s with username := u, authenticated := true } : Session) =
      (fun t => if t.sid == sid then { t with username := u, authenticated := true } else t) s := by
    simp [hsid]
  rw [this]
  exact List.mem_map_of_mem _ hs

/-- Applying the in-place update to a list whose `sid`s are distinct and where
no session yet carries `u` leaves at most one session carrying `u`. -/
theorem authCount_update_le_one (clients : List Session) (sid : Nat) (u : List Char)
    (hnd : (clients.map Session.sid).Nodup)
    (h0 : authCount clients u = 0) :
    authCount (clients.map (fun s =>
      if s.sid == sid then { s with username := u, authenticated := true } else s)) u ≤ 1 := by
  induction clients with
  | nil => simp [authCount]
  | cons s rest ih =>
    simp only [List.map_cons, List.nodup_cons] at hnd
    simp only [authCount, List.countP_cons] at h0
    have hrest0 : authCount rest u = 0 := by
      simp only [authCount]; omega
    have hs0 : (s.authenticated && s.username == u) = false := by
      by_cases hb : (s.authenticated && s.username == u) = true
      · simp [hb] at h0
      · exact Bool.not_eq_true _ |>.mp hb
    by_cases hsid : s.sid == sid
    · have hsid' : sid = s.sid := by
        have := beq_iff_eq.mp hsid; omega
      have hfix : ∀ t ∈ rest, (if t.sid == sid then
          { t with username := u, authenticated := true } else t) = t := by
        intro t ht
        have : t.sid ≠ sid := by
          intro hcontra
          apply hnd.1
          have h2 : s.sid = t.sid := (hcontra.trans hsid').symm
          rw [h2]
          exact List.mem_map_of_mem Session.sid ht
        simp [this]
      have hrest : rest.map (fun t => if t.sid == sid then
          { t with username := u, authenticated := true } else t) = rest :=
        (List.map_congr_left hfix).trans (List.map_id rest)
      simp only [List.map_cons, hsid, if_true, hrest, authCount, List.countP_cons]
      simp only [authCount] at hrest0
      simp [hrest0]
    · have hs0' : ¬(s.authenticated = true ∧ s.username = u) := by simpa using hs0
      have hih := ih hnd.2 hrest0
      simp only [authCount] at hih
      simp only [authCount, List.map_cons, List.countP_cons]
      simpa [hs0', List.countP_map, Function.comp, hsid] using hih

/-- One atomic `AUTH` critical section preserves the invariant that at most
one authenticated session carries `u`. -/
theorem authenticate_authCount_le_one (clients : List Session) (sid : Nat) (u : List Char)
    (hnd : (clients.map Session.sid).Nodup)
    (h : authCount clients u ≤ 1) :
    authCount (authenticate clients sid u).1 u ≤ 1 := by
  unfold authenticate
  by_cases hava : username_available clients u = true
  · simp only [hava, if_true]
    exact authCount_update_le_one clients sid u hnd ((authCount_eq_zero clients u).mpr hava)
  · simp only [Bool.not_eq_true] at hava
    simp [hava, h]

/-- Every intermediate registry state of an attempt sequence keeps at most one
authenticated session with username `u`. -/
theorem runAuthsStates_inv (u : List Char) (sids : List Nat) (clients : List Session)
    (hnd : (clients.map Session.sid).Nodup)
    (h : authCount clients u ≤ 1) :
    (runAuthsStates u sids clients).all (fun st => decide (authCount st u ≤ 1)) = true := by
  induction sids generalizing clients with
  | nil => simp [runAuthsStates, h]
  | cons sid rest ih =>
    simp only [runAuthsStates, List.all_cons, Bool.and_eq_true, decide_eq_true_eq]
    refine ⟨h, ih _ ?_ ?_⟩
    · rw [authenticate_map_sid]; exact hnd
    · exact authenticate_authCount_le_one clients sid u hnd h

/-- C1: for every sequence of interleaved `AUTH` attempts with the same
username (each attempt being the atomic check-then-insert critical section of
`client_worker`, executed under `clients_lock`), starting from a registry
where the name is free, exactly the first attempt succeeds and every other
attempt is rejected with `Username taken`; moreover every registry state the
sequence passes through, intermediate states included, holds at most one
authenticated session with that username. -/
theorem auth_exactly_one_success (clients : List Session) (u : List Char)
    (sid : Nat) (sids : List Nat)
    (hava : username_available clients u = true)
    (hmem : sid ∈ clients.map Session.sid)
    (hnd : (clients.map Session.sid).Nodup) :
    (runAuths u (sid :: sids) clients).2 = true :: List.replicate sids.length false
    ∧ (runAuthsStates u (sid :: sids) clients).all
        (fun st => decide (authCount st u ≤ 1)) = true := by
  constructor
  · have hstep : (authenticate clients sid u).2 = true := by
      simp [authenticate, hava]
    have htaken := authenticate_success_taken clients sid u hmem hava
    simp only [runAuths, runAuths_taken u sids _ htaken, hstep]
  · apply runAuthsStates_inv u (sid :: sids) clients hnd
    have := (authCount_eq_zero clients u).mpr hava
    omega

/-- Concrete run of `auth_exactly_one_success`: two fresh sessions, three
interleaved attempts for username `c`; the first wins, the rest are refused. -/
theorem auth_exactly_one_success_witness :
    (runAuths ['c'] [0, 1] [⟨0, [], false⟩, ⟨1, [], false⟩]).2 =
        true :: List.replicate 1 false
    ∧ (runAuthsStates ['c'] [0, 1] [⟨0, [], false⟩, ⟨1, [], false⟩]).all
        (fun st => decide (authCount st ['c'] ≤ 1)) = true :=
  auth_exactly_one_success [⟨0, [], false⟩, ⟨1, [], false⟩] ['c'] 0 [1]
    (by decide) (by decide) (by decide)

/-- The `USER` lines produced by the `notify_user_list` loop (mirrors the
`while (cur) { if (cur->authenticated) send USER ... }` walk). -/
def userLoop : List Session → List (List Char)
  | [] => []
  | s :: rest =>
    if s.authenticated then ("USER ".toList ++ s.username) :: userLoop rest
    else userLoop rest

/-- Function `notify_user_list`: frame the walk with `USERS_BEGIN` / `USERS_END`. -/
def notify_user_list (clients : List Session) : List (List Char) :=
  "USERS_BEGIN".toList :: (userLoop clients ++ ["USERS_END".toList])

/-- The atomic registry operations a run of the server performs, as seen from
`clients_lock` critical sections: `accept_loop` adds a zeroed session
(`calloc`: empty username, `authenticated = false`) before the worker starts;
the worker's `AUTH` critical section authenticates it; the worker's exit path
removes it. -/
inductive Event
  | accept (sid : Nat)
  | auth (sid : Nat) (u : List Char)
  | disconnect (sid : Nat)

/-- One registry transition per event, exactly as the corresponding critical
section mutates `clients_head`.  The `auth` case carries `client_worker`'s
length guard. -/
def stepEvent (clients : List Session) : Event → List Session
  | .accept sid => add_client ⟨sid, [], false⟩ clients
  | .auth sid u =>
    if u.length = 0 || MAX_USERNAME ≤ u.length then clients
    else (authenticate clients sid u).1
  | .disconnect sid => remove_client sid clients

/-- Registry contents after a sequence of events, starting from the empty
server. -/
def serverRun (evs : List Event) : List Session :=
  evs.foldl stepEvent []

/-- C2, counterexample: the claim says a session is absent from the registry
at all times while unauthenticated, but `accept_loop` links the session into
`clients_head` via `add_client` before any `AUTH` is processed: after a bare
accept, the registry list holds an unauthenticated session. -/
theorem session_in_list_before_auth :
    (serverRun [Event.accept 0]).any (fun s => !s.authenticated) = true := by
  decide

/-- C2, amended: sessions are linked into the clients list at accept time,
before authentication; what holds is that every registry *observation*
filters on the `authenticated` flag, so the username-to-session mapping the
registry exposes contains a session for `u` exactly when some listed session
is authenticated with username `u`, and the `USERS` listing shows a `USER`
line for `u` exactly under the same condition. -/
theorem registry_observation_iff_authenticated (clients : List Session) (u : List Char) :
    ((find_client_by_name clients u).isSome = true ↔
      ∃ s ∈ clients, s.authenticated = true ∧ s.username = u)
    ∧ (("USER ".toList ++ u) ∈ notify_user_list clients ↔
      ∃ s ∈ clients, s.authenticated = true ∧ s.username = u) := by
  constructor
  · simp only [find_client_by_name]
    rw [List.find?_isSome]
    constructor
    · rintro ⟨s, hs, hp⟩
      simp only [Bool.and_eq_true, beq_iff_eq] at hp
      exact ⟨s, hs, hp.1, hp.2⟩
    · rintro ⟨s, hs, h1, h2⟩
      exact ⟨s, hs, by simp [h1, h2]⟩
  · have husers : ∀ cl : List Session, (("USER ".toList ++ u) ∈ userLoop cl ↔
        ∃ s ∈ cl, s.authenticated = true ∧ s.username = u) := by
      intro cl
      induction cl with
      | nil => simp [userLoop]
      | cons s rest ih =>
        by_cases hs : s.authenticated = true
        · rw [show userLoop (s :: rest) =
              ("USER ".toList ++ s.username) :: userLoop rest from by simp [userLoop, hs]]
          constructor
          · intro hmem
            rcases List.mem_cons.mp hmem with heq | hloop
            · exact ⟨s, List.mem_cons_self s rest, hs,
                (List.append_cancel_left heq).symm⟩
            · obtain ⟨t, ht, h1, h2⟩ := ih.mp hloop
              exact ⟨t, List.mem_cons_of_mem s ht, h1, h2⟩
          · rintro ⟨t, ht, h1, h2⟩
            rcases List.mem_cons.mp ht with rfl | ht'
            · exact List.mem_cons.mpr (Or.inl (by rw [h2]))
            · exact List.mem_cons.mpr (Or.inr (ih.mpr ⟨t, ht', h1, h2⟩))
        · rw [show userLoop (s :: rest) = userLoop rest from by simp [userLoop, hs]]
          rw [ih]
          constructor
          · rintro ⟨t, ht, h1, h2⟩
            exact ⟨t, List.mem_cons_of_mem s ht, h1, h2⟩
          · rintro ⟨t, ht, h1, h2⟩
            rcases List.mem_cons.mp ht with rfl | ht'
            · exact absurd h1 hs
            · exact ⟨t, ht', h1, h2⟩
    rw [notify_user_list]
    constructor
    · intro hmem
      rcases List.mem_cons.mp hmem with hbegin | hmem'
      · have h4 : ("USER ".toList ++ u)[4]? = ("USERS_BEGIN".toList)[4]? := by
          rw [hbegin]
        rw [List.getElem?_append_left (by decide)] at h4
        exact absurd h4 (by decide)
      · rcases List.mem_append.mp hmem' with hloop | hend
        · exact (husers clients).mp hloop
        · have heq := List.mem_singleton.mp hend
          have h4 : ("USER ".toList ++ u)[4]? = ("USERS_END".toList)[4]? := by
            rw [heq]
          rw [List.getElem?_append_left (by decide)] at h4
          exact absurd h4 (by decide)
    · intro h
      exact List.mem_cons_of_mem _ (List.mem_append_left _ ((husers clients).mpr h))

/-- One row of the `messages` table of `storage.c` (SQLite backend):
`id INTEGER PRIMARY KEY AUTOINCREMENT`, sender, receiver, body, and the
server-assigned `created_at` timestamp (modelled as a number; the SQL
`datetime` rendering is order-isomorphic for the claims at hand). -/
structure Msg where
  id : Nat
  sender : List Char
  receiver : List Char
  body : List Char
  ts : Nat
deriving DecidableEq

/-- The table in scan (insertion / rowid) order plus the autoincrement
counter. -/
structure Store where
  msgs : List Msg
  nextId : Nat
deriving DecidableEq

/-- The `WHERE (sender=? AND receiver=?) OR (sender=? AND receiver=?)`
predicate shared by fetch and delete. -/
def matchPair (a b : List Char) (m : Msg) : Bool :=
  (m.sender == a && m.receiver == b) || (m.sender == b && m.receiver == a)

/-- Function `storage_store_message`: a successful `INSERT` appends one row with the
fresh autoincrement id; a failed step (`rc != SQLITE_DONE`, injected through
`ok`) records nothing and reports `-1` (here `false`). -/
def storage_store_message (ok : Bool) (ts : Nat) (sender receiver body : List Char)
    (st : Store) : Store × Bool :=
  if ok then
    ({ msgs := st.msgs ++ [⟨st.nextId, sender, receiver, body, ts⟩],
       nextId := st.nextId + 1 }, true)
  else
    (st, false)

/-- Stable insertion: the new row goes after every already-placed row whose
timestamp is not larger. -/
def sortIns (m : Msg) : List Msg → List Msg
  | [] => [m]
  | x :: xs => if x.ts ≤ m.ts then x :: sortIns m xs else m :: x :: xs

/-- The SQL `ORDER BY created_at ASC` realized as a stable sort over the scan
(rowid) order of the table. -/
def sortByTs (l : List Msg) : List Msg :=
  l.foldl (fun acc m => sortIns m acc) []

/-- Function `storage_fetch_conversation`: rows of the unordered pair `{a, b}`,
ascending by timestamp. -/
def storage_fetch_conversation (a b : List Char) (st : Store) : List Msg :=
  sortByTs (st.msgs.filter (matchPair a b))

/-- Function `storage_delete_conversation`: the `DELETE` of all rows of the pair. -/
def storage_delete_conversation (a b : List Char) (st : Store) : Store :=
  { st with msgs := st.msgs.filter (fun m => !(matchPair a b m)) }

theorem countP_sortIns (p : Msg → Bool) (m : Msg) (l : List Msg) :
    (sortIns m l).countP p = l.countP p + if p m then 1 else 0 := by
  induction l with
  | nil => simp [sortIns, List.countP_cons]
  | cons x xs ih =>
    by_cases h : x.ts ≤ m.ts
    · simp only [sortIns, h, if_true, List.countP_cons, ih]
      omega
    · simp only [sortIns, h, if_false, List.countP_cons]

theorem countP_sortFold (p : Msg → Bool) (l acc : List Msg) :
    (l.foldl (fun a m => sortIns m a) acc).countP p = acc.countP p + l.countP p := by
  induction l generalizing acc with
  | nil => simp
  | cons m rest ih =>
    rw [List.foldl_cons, ih, countP_sortIns, List.countP_cons]
    omega

/-- Sorting permutes the filtered rows, so it preserves every count. -/
theorem countP_sortByTs (p : Msg → Bool) (l : List Msg) :
    (sortByTs l).countP p = l.countP p := by
  simp [sortByTs, countP_sortFold]

theorem matchPair_symm (a b : List Char) (m : Msg) :
    matchPair a b m = matchPair b a m := by
  simp only [matchPair]
  exact Bool.or_comm _ _

/-- Fetching right after a successful append finds the fresh row exactly once,
for any fetch pair the new row matches (given the autoincrement freshness
invariant). -/
theorem fetch_new_count (x y a b body : List Char) (ts : Nat) (st : Store)
    (hid : ∀ m ∈ st.msgs, m.id < st.nextId)
    (hmatch : matchPair x y (⟨st.nextId, a, b, body, ts⟩ : Msg) = true) :
    (storage_fetch_conversation x y
        (storage_store_message true ts a b body st).1).countP
          (fun m => m.id == st.nextId) = 1 := by
  have hmsgs : (storage_store_message true ts a b body st).1.msgs =
      st.msgs ++ [⟨st.nextId, a, b, body, ts⟩] := by
    simp [storage_store_message]
  rw [storage_fetch_conversation, countP_sortByTs, hmsgs, List.filter_append,
    List.countP_append]
  rw [show List.filter (matchPair x y) [(⟨st.nextId, a, b, body, ts⟩ : Msg)] =
      [⟨st.nextId, a, b, body, ts⟩] from by simp [hmatch]]
  rw [show (st.msgs.filter (matchPair x y)).countP (fun m => m.id == st.nextId) = 0 from by
    rw [List.countP_eq_zero]
    intro m hm
    have := hid m (List.mem_filter.mp hm).1
    simp only [beq_iff_eq]
    omega]
  simp

/-- Deleting a pair leaves nothing of it to fetch, whatever the store. -/
theorem fetch_after_delete (a b : List Char) (st : Store) :
    storage_fetch_conversation a b (storage_delete_conversation a b st) = [] := by
  rw [storage_fetch_conversation, storage_delete_conversation]
  rw [show (st.msgs.filter (fun m => !(matchPair a b m))).filter (matchPair a b) = [] from by
    rw [List.filter_filter]
    apply List.filter_eq_nil_iff.mpr
    intro m _
    cases h : matchPair a b m <;> simp [h]]
  rfl

/-- C5: after a successful `append(A,B,body)`, a `fetch(A,B)` and equally a
`fetch(B,A)` (the conversation is keyed by the unordered pair) include the
new record exactly once, and after a subsequent successful `delete(A,B)` a
further fetch of the pair returns nothing of it. -/
theorem history_round_trip (a b body : List Char) (ts : Nat) (st : Store)
    (hid : ∀ m ∈ st.msgs, m.id < st.nextId) :
    ((storage_fetch_conversation a b
        (storage_store_message true ts a b body st).1).countP
          (fun m => m.id == st.nextId) = 1
    ∧ (storage_fetch_conversation b a
        (storage_store_message true ts a b body st).1).countP
          (fun m => m.id == st.nextId) = 1
    ∧ storage_fetch_conversation a b
        (storage_delete_conversation a b
          (storage_store_message true ts a b body st).1) = []) := by
  refine ⟨?_, ?_, fetch_after_delete a b _⟩
  · exact fetch_new_count a b a b body ts st hid (by simp [matchPair])
  · exact fetch_new_count b a a b body ts st hid (by
      rw [← matchPair_symm]
      simp [matchPair])

/-- Concrete round trip: one prior unrelated row, then append `a -> b`. -/
theorem history_round_trip_witness :
    ((storage_fetch_conversation ['a'] ['b']
        (storage_store_message true 7 ['a'] ['b'] ['h', 'i']
          ⟨[⟨0, ['c'], ['d'], ['z'], 3⟩], 1⟩).1).countP
          (fun m => m.id == 1) = 1
    ∧ (storage_fetch_conversation ['b'] ['a']
        (storage_store_message true 7 ['a'] ['b'] ['h', 'i']
          ⟨[⟨0, ['c'], ['d'], ['z'], 3⟩], 1⟩).1).countP
          (fun m => m.id == 1) = 1
    ∧ storage_fetch_conversation ['a'] ['b']
        (storage_delete_conversation ['a'] ['b']
          (storage_store_message true 7 ['a'] ['b'] ['h', 'i']
            ⟨[⟨0, ['c'], ['d'], ['z'], 3⟩], 1⟩).1) = []) :=
  history_round_trip ['a'] ['b'] ['h', 'i'] 7 ⟨[⟨0, ['c'], ['d'], ['z'], 3⟩], 1⟩
    (by decide)

/-- Strict lexicographic order on (timestamp, id): the fetch order the spec
describes — ascending creation time, ties broken by the stable insertion /
identifier order. -/
def tsIdLt (m1 m2 : Msg) : Prop :=
  m1.ts < m2.ts ∨ (m1.ts = m2.ts ∧ m1.id < m2.id)

instance : DecidableRel tsIdLt := fun m1 m2 => by
  unfold tsIdLt
  infer_instance

theorem mem_sortIns {y m : Msg} {l : List Msg} (h : y ∈ sortIns m l) :
    y = m ∨ y ∈ l := by
  induction l with
  | nil => simpa [sortIns] using h
  | cons x xs ih =>
    by_cases hc : x.ts ≤ m.ts
    · simp only [sortIns, hc, if_true, List.mem_cons] at h
      rcases h with rfl | h'
      · exact Or.inr (List.mem_cons_self _ _)
      · rcases ih h' with rfl | hy
        · exact Or.inl rfl
        · exact Or.inr (List.mem_cons_of_mem _ hy)
    · simp only [sortIns, hc, if_false, List.mem_cons] at h
      rcases h with rfl | h'
      · exact Or.inl rfl
      · exact Or.inr (List.mem_cons.mpr h')

/-- Inserting a row whose id is larger than every already-placed id keeps the
accumulated list strictly (ts, id)-ascending. -/
theorem pairwise_sortIns (m : Msg) (l : List Msg)
    (hl : l.Pairwise tsIdLt)
    (hid : ∀ x ∈ l, x.id < m.id) :
    (sortIns m l).Pairwise tsIdLt := by
  induction l with
  | nil => simp [sortIns]
  | cons x xs ih =>
    rcases List.pairwise_cons.mp hl with ⟨hxall, hxs⟩
    by_cases hc : x.ts ≤ m.ts
    · simp only [sortIns, hc, if_true]
      rw [List.pairwise_cons]
      constructor
      · intro y hy
        rcases mem_sortIns hy with rfl | hy'
        · rcases lt_or_eq_of_le hc with hlt | heq
          · exact Or.inl hlt
          · exact Or.inr ⟨heq, hid x (List.mem_cons_self _ _)⟩
        · exact hxall y hy'
      · exact ih hxs (fun y hy => hid y (List.mem_cons_of_mem _ hy))
    · simp only [sortIns, hc, if_false]
      rw [List.pairwise_cons]
      constructor
      · intro y hy
        rcases List.mem_cons.mp hy with rfl | hy'
        · exact Or.inl (by omega)
        · rcases hxall y hy' with h1 | h2
          · exact Or.inl (by omega)
          · exact Or.inl (by omega)
      · exact hl
    
/-- Folding stable insertions over rows of strictly increasing ids yields a
strictly (ts, id)-ascending list. -/
theorem pairwise_sortFold (l acc : List Msg)
    (hacc : acc.Pairwise tsIdLt)
    (hl : l.Pairwise (fun m1 m2 => m1.id < m2.id))
    (hcross : ∀ x ∈ acc, ∀ m ∈ l, x.id < m.id) :
    (l.foldl (fun a m => sortIns m a) acc).Pairwise tsIdLt := by
  induction l generalizing acc with
  | nil => simpa
  | cons m rest ih =>
    rw [List.foldl_cons]
    rcases List.pairwise_cons.mp hl with ⟨hmall, hrest⟩
    apply ih
    · exact pairwise_sortIns m acc hacc (fun x hx => hcross x hx m (List.mem_cons_self _ _))
    · exact hrest
    · intro x hx m' hm'
      rcases mem_sortIns hx with rfl | hx'
      · exact hmall m' hm'
      · exact hcross x hx' m' (List.mem_cons_of_mem _ hm')

/-- C6: a history fetch over a table whose rowids ascend in scan order (the
autoincrement invariant) returns rows in strictly creation-time-ascending
order, rows with equal timestamps appearing in rowid (insertion) order; the
fetch is a pure function of the stored data, so two identical fetches yield
the same sequence. -/
theorem fetch_sorted (a b : List Char) (st : Store)
    (hinc : st.msgs.Pairwise (fun m1 m2 => m1.id < m2.id)) :
    (storage_fetch_conversation a b st).Pairwise tsIdLt := by
  unfold storage_fetch_conversation sortByTs
  exact pairwise_sortFold _ [] List.Pairwise.nil (hinc.filter _)
    (fun x hx => absurd hx (List.not_mem_nil x))

/-- Concrete fetch with a timestamp tie (rows 0 and 1 share `ts = 5`). -/
theorem fetch_sorted_witness :
    (storage_fetch_conversation ['a'] ['b']
      ⟨[⟨0, ['a'], ['b'], ['x'], 5⟩, ⟨1, ['b'], ['a'], ['y'], 5⟩,
        ⟨2, ['a'], ['b'], ['z'], 4⟩], 3⟩).Pairwise tsIdLt :=
  fetch_sorted ['a'] ['b'] _ (by decide)

/-- Function `trim_newline`: strip the trailing run of `'\n'`, `'\r'`, `' '` (the C
code walks backwards overwriting them with NUL). -/
def trim_newline (l : List Char) : List Char :=
  (l.reverse.dropWhile (fun c => c == '\n' || c == '\r' || c == ' ')).reverse

/-- The `strchr(rest, ' ')` splitting of the `SEND` arguments: the part before
the first space and the part after it, or `none` when there is no space. -/
def splitAtSpace (l : List Char) : Option (List Char × List Char) :=
  if l.contains ' ' then
    some (l.takeWhile (fun c => !(c == ' ')), (l.dropWhile (fun c => !(c == ' '))).tail)
  else
    none

/-- Outcome of `deliver_message`: the store after the append attempt, the
`MESSAGE` frame pushed to the receiver's connection (if one was found), and
the diagnostic printed to stderr on a failed append. -/
structure DeliverResult where
  store : Store
  pushes : List (Nat × List Char)
  errlog : List (List Char)
deriving DecidableEq

/-- Function `deliver_message`: persist first (reporting a failure only on stderr),
then — under `clients_lock` — look the receiver up and push the `MESSAGE`
frame if a session is found. -/
def deliver_message (ok : Bool) (ts : Nat) (clients : List Session)
    (sender receiver body : List Char) (st : Store) : DeliverResult :=
  let step := storage_store_message ok ts sender receiver body st
  { store := step.1
    pushes :=
      match find_client_by_name clients receiver with
      | some target => [(target.sid, "MESSAGE ".toList ++ sender ++ ' ' :: body)]
      | none => []
    errlog := if step.2 then [] else ["Failed to persist message".toList] }

/-- Everything one iteration of `client_worker`'s dispatch produces: the new
registry, the worker's own (possibly authenticated) session, the store, the
lines written back to this client, the frames pushed to other sessions, the
stderr log, and whether the loop breaks (`QUIT`). -/
structure StepResult where
  clients : List Session
  self : Session
  store : Store
  replies : List (List Char)
  pushes : List (Nat × List Char)
  errlog : List (List Char)
  quit : Bool
deriving DecidableEq

/-- One iteration of `client_worker`'s dispatch over an already-read line
(CRs and the final LF removed by `read_line`).  Mirrors the C branch order:
the unauthenticated state accepts only `AUTH`; the authenticated state
checks `SEND`, `GET`, `DELETE`, `USERS`, `QUIT`, else unknown.  `storeOk`
injects the SQLite outcome of an insert; a fetch that reaches the walk is
modelled as succeeding. -/
def processLine (storeOk : Bool) (ts : Nat) (st : Store) (clients : List Session)
    (self : Session) (line : List Char) : StepResult :=
  if self.authenticated = false then
    if "AUTH ".toList.isPrefixOf line then
      let username := trim_newline (line.drop 5)
      if username.length = 0 ∨ MAX_USERNAME ≤ username.length then
        ⟨clients, self, st, ["ERROR Invalid username length".toList], [], [], false⟩
      else if username_available clients username then
        ⟨(authenticate clients self.sid username).1,
         { self with username := username, authenticated := true }, st,
         ["OK Authenticated as ".toList ++ username], [], [], false⟩
      else
        ⟨clients, self, st, ["ERROR Username taken".toList], [], [], false⟩
    else
      ⟨clients, self, st,
       ["ERROR Authenticate first using AUTH <username>".toList], [], [], false⟩
  else if "SEND ".toList.isPrefixOf line then
    match splitAtSpace (line.drop 5) with
    | none =>
      ⟨clients, self, st, ["ERROR Usage: SEND <user> <message>".toList], [], [], false⟩
    | some (target, message) =>
      if message.length = 0 then
        ⟨clients, self, st, ["ERROR Message cannot be empty".toList], [], [], false⟩
      else
        let d := deliver_message storeOk ts clients self.username target message st
        ⟨clients, self, d.store, ["OK Message queued".toList], d.pushes, d.errlog, false⟩
  else if "GET ".toList.isPrefixOf line then
    let other := line.drop 4
    if other.length = 0 then
      ⟨clients, self, st, ["ERROR Usage: GET <user>".toList], [], [], false⟩
    else
      let rows := storage_fetch_conversation self.username other st
      if rows.length = 0 then
        ⟨clients, self, st, ["INFO No messages with ".toList ++ other], [], [], false⟩
      else
        ⟨clients, self, st,
         rows.map (fun m => "HISTORY ".toList ++ (toString m.ts).toList ++
           ' ' :: m.sender ++ ' ' :: m.body) ++ ["OK History end".toList],
         [], [], false⟩
  else if "DELETE ".toList.isPrefixOf line then
    let other := line.drop 7
    if other.length = 0 then
      ⟨clients, self, st, ["ERROR Usage: DELETE <user>".toList], [], [], false⟩
    else
      ⟨clients, self, storage_delete_conversation self.username other st,
       ["OK Deleted history with ".toList ++ other], [], [], false⟩
  else if line = "USERS".toList then
    ⟨clients, self, st, notify_user_list clients, [], [], false⟩
  else if line = "QUIT".toList then
    ⟨clients, self, st, ["BYE".toList], [], [], true⟩
  else
    ⟨clients, self, st, ["ERROR Unknown command".toList], [], [], false⟩

theorem takeWhile_no_space (target body : List Char)
    (h : target.contains ' ' = false) :
    (target ++ ' ' :: body).takeWhile (fun c => !(c == ' ')) = target := by
  induction target with
  | nil => simp [List.takeWhile_cons]
  | cons c cs ih =>
    rw [List.contains_cons] at h
    have hc : c ≠ ' ' := by
      intro hceq
      subst hceq
      simp at h
    have hcs : cs.contains ' ' = false := by
      cases hx : cs.contains ' '
      · rfl
      · rw [hx] at h
        simp at h
    have hc2 : (c == ' ') = false := beq_eq_false_iff_ne.mpr hc
    rw [List.cons_append, List.takeWhile_cons]
    simp [hc2, ih hcs]

theorem dropWhile_no_space (target body : List Char)
    (h : target.contains ' ' = false) :
    (target ++ ' ' :: body).dropWhile (fun c => !(c == ' ')) = ' ' :: body := by
  induction target with
  | nil => simp [List.dropWhile_cons]
  | cons c cs ih =>
    rw [List.contains_cons] at h
    have hc : c ≠ ' ' := by
      intro hceq
      subst hceq
      simp at h
    have hcs : cs.contains ' ' = false := by
      cases hx : cs.contains ' '
      · rfl
      · rw [hx] at h
        simp at h
    have hc2 : (c == ' ') = false := beq_eq_false_iff_ne.mpr hc
    rw [List.cons_append, List.dropWhile_cons]
    simp [hc2, ih hcs]

/-- The `strchr` parsing of a well-formed `SEND` argument: a space-free target
followed by one space and the message splits back into the two parts. -/
theorem splitAtSpace_append (target body : List Char)
    (h : target.contains ' ' = false) :
    splitAtSpace (target ++ ' ' :: body) = some (target, body) := by
  have hcont : (target ++ ' ' :: body).contains ' ' = true := by
    simp
  simp [splitAtSpace, hcont, takeWhile_no_space target body h,
    dropWhile_no_space target body h]

theorem dropWhile_append_of_all {p : Char → Bool} {l1 l2 : List Char}
    (h : ∀ c ∈ l1, p c = true) :
    (l1 ++ l2).dropWhile p = l2.dropWhile p := by
  induction l1 with
  | nil => rfl
  | cons c cs ih =>
    rw [List.cons_append, List.dropWhile_cons]
    simp [h c (List.mem_cons_self _ _), ih (fun d hd => h d (List.mem_cons_of_mem _ hd))]

/-- Function `trim_newline` removes exactly a trailing whitespace run: appending any
run of `' '`, `'\r'`, `'\n'` to a string already free of trailing whitespace
trims back to the string itself. -/
theorem trim_newline_append_ws (u ws : List Char)
    (hu : trim_newline u = u)
    (hws : ∀ c ∈ ws, c = ' ' ∨ c = '\r' ∨ c = '\n') :
    trim_newline (u ++ ws) = u := by
  unfold trim_newline at hu ⊢
  have hall : ∀ c ∈ ws.reverse,
      (fun c => c == '\n' || c == '\r' || c == ' ') c = true := by
    intro c hc
    rcases hws c (List.mem_reverse.mp hc) with h | h | h <;> simp [h]
  rw [List.reverse_append, dropWhile_append_of_all hall, hu]

/-- C4, counterexample: the claim says `QUIT` is accepted in every state, but
sending `QUIT` on an unauthenticated session draws the must-authenticate
error, no `BYE`, and the worker loop continues (no transition to Closed). -/
theorem quit_before_auth_rejected :
    (processLine true 0 ⟨[], 0⟩ [⟨0, [], false⟩] ⟨0, [], false⟩ "QUIT".toList).replies =
        ["ERROR Authenticate first using AUTH <username>".toList]
    ∧ (processLine true 0 ⟨[], 0⟩ [⟨0, [], false⟩] ⟨0, [], false⟩ "QUIT".toList).quit =
        false :=
  ⟨rfl, rfl⟩

/-- C4, amended: `QUIT` is honoured only in the Active (authenticated) state,
where the server replies `BYE` and the worker leaves its loop (the session is
then closed and destroyed); in the Authenticating state `QUIT`, like every
non-`AUTH` line, is rejected with the must-authenticate error and the
session stays open. -/
theorem quit_handling (storeOk : Bool) (ts : Nat) (st : Store)
    (clients : List Session) (self : Session) :
    (self.authenticated = true →
      (processLine storeOk ts st clients self "QUIT".toList).replies = ["BYE".toList]
      ∧ (processLine storeOk ts st clients self "QUIT".toList).quit = true)
    ∧ (self.authenticated = false →
      (processLine storeOk ts st clients self "QUIT".toList).replies =
        ["ERROR Authenticate first using AUTH <username>".toList]
      ∧ (processLine storeOk ts st clients self "QUIT".toList).quit = false) := by
  obtain ⟨sid, uname, auth⟩ := self
  cases auth
  · exact ⟨fun h => Bool.noConfusion h, fun _ => ⟨rfl, rfl⟩⟩
  · exact ⟨fun _ => ⟨rfl, rfl⟩, fun h => Bool.noConfusion h⟩

/-- Instance of `quit_handling` at a concrete authenticated session. -/
theorem quit_handling_witness :
    (processLine true 0 ⟨[], 0⟩ [] ⟨0, ['a'], true⟩ "QUIT".toList).replies = ["BYE".toList]
    ∧ (processLine true 0 ⟨[], 0⟩ [] ⟨0, ['a'], true⟩ "QUIT".toList).quit = true :=
  (quit_handling true 0 ⟨[], 0⟩ [] ⟨0, ['a'], true⟩).1 rfl

/-- C3, counterexample: with the store failing, the sender still receives
only `OK Message queued` — the diagnostic goes to stderr, never to the
requesting client as an `ERROR` line. -/
theorem send_store_failure_counterexample :
    (processLine false 0 ⟨[], 0⟩ [⟨1, ['b'], true⟩] ⟨0, ['a'], true⟩
        "SEND b hi".toList).replies = ["OK Message queued".toList]
    ∧ (processLine false 0 ⟨[], 0⟩ [⟨1, ['b'], true⟩] ⟨0, ['a'], true⟩
        "SEND b hi".toList).errlog = ["Failed to persist message".toList] :=
  ⟨rfl, rfl⟩

theorem isPrefixOf_append_self (l1 l2 : List Char) :
    l1.isPrefixOf (l1 ++ l2) = true := by
  induction l1 with
  | nil => simp
  | cons c cs ih => simp [List.isPrefixOf_cons₂, ih]

/-- C3, amended: when the persistence append of a `SEND` fails, the server
logs the diagnostic to stderr and keeps running, the failed append does not
prevent the attempted live delivery (the pushes are those of a successful
append), nothing is persisted, and the sender is told `OK Message queued` —
the failure is not surfaced to the requesting client. -/
theorem send_store_failure_behavior (ts : Nat) (st : Store) (clients : List Session)
    (sid : Nat) (uname target body : List Char)
    (htarget : target.contains ' ' = false)
    (hbody : body ≠ []) :
    (processLine false ts st clients ⟨sid, uname, true⟩
        ("SEND ".toList ++ (target ++ ' ' :: body))).replies = ["OK Message queued".toList]
    ∧ (processLine false ts st clients ⟨sid, uname, true⟩
        ("SEND ".toList ++ (target ++ ' ' :: body))).errlog =
        ["Failed to persist message".toList]
    ∧ (processLine false ts st clients ⟨sid, uname, true⟩
        ("SEND ".toList ++ (target ++ ' ' :: body))).pushes =
      (processLine true ts st clients ⟨sid, uname, true⟩
        ("SEND ".toList ++ (target ++ ' ' :: body))).pushes
    ∧ (processLine false ts st clients ⟨sid, uname, true⟩
        ("SEND ".toList ++ (target ++ ' ' :: body))).store = st
    ∧ (processLine false ts st clients ⟨sid, uname, true⟩
        ("SEND ".toList ++ (target ++ ' ' :: body))).quit = false := by
  have hsplit := splitAtSpace_append target body htarget
  have hblen : ¬(body.length = 0) := by
    cases body
    · exact absurd rfl hbody
    · simp
  have hdrop : ("SEND ".toList ++ (target ++ ' ' :: body)).drop 5 =
      target ++ ' ' :: body := rfl
  have hpre : ("SEND ".toList.isPrefixOf
      ("SEND ".toList ++ (target ++ ' ' :: body))) = true :=
    isPrefixOf_append_self _ _
  refine ⟨?_, ?_, ?_, ?_, ?_⟩ <;>
    simp [processLine, hpre, hdrop, hsplit, hblen, deliver_message,
      storage_store_message]

/-- Instance of `send_store_failure_behavior` at concrete inputs (receiver online). -/
theorem send_store_failure_behavior_witness :
    (processLine false 0 ⟨[], 0⟩ [⟨1, ['b'], true⟩] ⟨0, ['a'], true⟩
        ("SEND ".toList ++ (['b'] ++ ' ' :: ['h', 'i']))).replies =
        ["OK Message queued".toList]
    ∧ (processLine false 0 ⟨[], 0⟩ [⟨1, ['b'], true⟩] ⟨0, ['a'], true⟩
        ("SEND ".toList ++ (['b'] ++ ' ' :: ['h', 'i']))).errlog =
        ["Failed to persist message".toList]
    ∧ (processLine false 0 ⟨[], 0⟩ [⟨1, ['b'], true⟩] ⟨0, ['a'], true⟩
        ("SEND ".toList ++ (['b'] ++ ' ' :: ['h', 'i']))).pushes =
      (processLine true 0 ⟨[], 0⟩ [⟨1, ['b'], true⟩] ⟨0, ['a'], true⟩
        ("SEND ".toList ++ (['b'] ++ ' ' :: ['h', 'i']))).pushes
    ∧ (processLine false 0 ⟨[], 0⟩ [⟨1, ['b'], true⟩] ⟨0, ['a'], true⟩
        ("SEND ".toList ++ (['b'] ++ ' ' :: ['h', 'i']))).store = ⟨[], 0⟩
    ∧ (processLine false 0 ⟨[], 0⟩ [⟨1, ['b'], true⟩] ⟨0, ['a'], true⟩
        ("SEND ".toList ++ (['b'] ++ ' ' :: ['h', 'i']))).quit = false :=
  send_store_failure_behavior 0 ⟨[], 0⟩ [⟨1, ['b'], true⟩] 0 ['a'] ['b'] ['h', 'i']
    (by decide) (by decide)

/-- C7: a `SEND` from an authenticated sender to a username with no connected
session still persists the message (and the fresh row shows up exactly once
in a later fetch of that conversation), pushes no `MESSAGE` frame to any
session, and reports `OK Message queued` to the sender. -/
theorem offline_send (ts : Nat) (st : Store) (clients : List Session)
    (sid : Nat) (uname target body : List Char)
    (htarget : target.contains ' ' = false)
    (hbody : body ≠ [])
    (hoff : find_client_by_name clients target = none)
    (hid : ∀ m ∈ st.msgs, m.id < st.nextId) :
    (processLine true ts st clients ⟨sid, uname, true⟩
        ("SEND ".toList ++ (target ++ ' ' :: body))).pushes = []
    ∧ (processLine true ts st clients ⟨sid, uname, true⟩
        ("SEND ".toList ++ (target ++ ' ' :: body))).replies =
        ["OK Message queued".toList]
    ∧ (processLine true ts st clients ⟨sid, uname, true⟩
        ("SEND ".toList ++ (target ++ ' ' :: body))).store.msgs =
        st.msgs ++ [⟨st.nextId, uname, target, body, ts⟩]
    ∧ (storage_fetch_conversation uname target
        (processLine true ts st clients ⟨sid, uname, true⟩
          ("SEND ".toList ++ (target ++ ' ' :: body))).store).countP
        (fun m => m.id == st.nextId) = 1 := by
  have hsplit := splitAtSpace_append target body htarget
  have hblen : ¬(body.length = 0) := by
    cases body
    · exact absurd rfl hbody
    · simp
  have hdrop : ("SEND ".toList ++ (target ++ ' ' :: body)).drop 5 =
      target ++ ' ' :: body := rfl
  have hpre : ("SEND ".toList.isPrefixOf
      ("SEND ".toList ++ (target ++ ' ' :: body))) = true :=
    isPrefixOf_append_self _ _
  have hstore : (processLine true ts st clients ⟨sid, uname, true⟩
      ("SEND ".toList ++ (target ++ ' ' :: body))).store =
      (storage_store_message true ts uname target body st).1 := by
    simp [processLine, hpre, hdrop, hsplit, hblen, deliver_message]
  refine ⟨?_, ?_, ?_, ?_⟩
  · simp [processLine, hpre, hdrop, hsplit, hblen, deliver_message, hoff]
  · simp [processLine, hpre, hdrop, hsplit, hblen, deliver_message]
  · rw [hstore]
    simp [storage_store_message]
  · rw [hstore]
    exact fetch_new_count uname target uname target body ts st hid (by simp [matchPair])

/-- Instance of `offline_send` with an empty registry: nobody is connected as `b`. -/
theorem offline_send_witness :
    (processLine true 3 ⟨[], 0⟩ [] ⟨0, ['a'], true⟩
        ("SEND ".toList ++ (['b'] ++ ' ' :: ['h', 'i']))).pushes = []
    ∧ (processLine true 3 ⟨[], 0⟩ [] ⟨0, ['a'], true⟩
        ("SEND ".toList ++ (['b'] ++ ' ' :: ['h', 'i']))).replies =
        ["OK Message queued".toList]
    ∧ (processLine true 3 ⟨[], 0⟩ [] ⟨0, ['a'], true⟩
        ("SEND ".toList ++ (['b'] ++ ' ' :: ['h', 'i']))).store.msgs =
        [] ++ [⟨0, ['a'], ['b'], ['h', 'i'], 3⟩]
    ∧ (storage_fetch_conversation ['a'] ['b']
        (processLine true 3 ⟨[], 0⟩ [] ⟨0, ['a'], true⟩
          ("SEND ".toList ++ (['b'] ++ ' ' :: ['h', 'i']))).store).countP
        (fun m => m.id == 0) = 1 :=
  offline_send 3 ⟨[], 0⟩ [] 0 ['a'] ['b'] ['h', 'i']
    (by decide) (by decide) (by decide) (by decide)

/-- C10: `AUTH` strips only the trailing whitespace run (spaces, CR, LF) from
the supplied username and preserves interior spaces: a line
`AUTH <u><trailing-ws>` with `u` free of trailing whitespace, non-empty and
under the length limit authenticates the session under exactly `u` — spaces
inside `u` included — replies `OK Authenticated as u`, and registers the name
(it is no longer available afterwards). -/
theorem auth_preserves_interior_spaces (storeOk : Bool) (ts : Nat) (st : Store)
    (clients : List Session) (sid : Nat) (uname0 : List Char) (u ws : List Char)
    (htrim : trim_newline u = u)
    (hws : ∀ c ∈ ws, c = ' ' ∨ c = '\r' ∨ c = '\n')
    (hlen0 : u.length ≠ 0) (hlen1 : u.length < MAX_USERNAME)
    (hava : username_available clients u = true)
    (hmem : sid ∈ clients.map Session.sid) :
    (processLine storeOk ts st clients ⟨sid, uname0, false⟩
        ("AUTH ".toList ++ (u ++ ws))).self = ⟨sid, u, true⟩
    ∧ (processLine storeOk ts st clients ⟨sid, uname0, false⟩
        ("AUTH ".toList ++ (u ++ ws))).replies =
        ["OK Authenticated as ".toList ++ u]
    ∧ username_available
        (processLine storeOk ts st clients ⟨sid, uname0, false⟩
          ("AUTH ".toList ++ (u ++ ws))).clients u = false := by
  have hdrop : ("AUTH ".toList ++ (u ++ ws)).drop 5 = u ++ ws := rfl
  have hpre : ("AUTH ".toList.isPrefixOf ("AUTH ".toList ++ (u ++ ws))) = true :=
    isPrefixOf_append_self _ _
  have htrim2 : trim_newline (u ++ ws) = u := trim_newline_append_ws u ws htrim hws
  have hne : ¬(u = [] ∨ MAX_USERNAME ≤ u.length) := by
    push_neg
    constructor
    · intro h
      subst h
      simp at hlen0
    · omega
  have hclients : (processLine storeOk ts st clients ⟨sid, uname0, false⟩
      ("AUTH ".toList ++ (u ++ ws))).clients = (authenticate clients sid u).1 := by
    simp [processLine, hpre, hdrop, htrim2, hne, hava]
  refine ⟨?_, ?_, ?_⟩
  · simp [processLine, hpre, hdrop, htrim2, hne, hava]
  · simp [processLine, hpre, hdrop, htrim2, hne, hava]
  · rw [hclients]
    exact authenticate_success_taken clients sid u hmem hava

/-- Instance of `auth_preserves_interior_spaces` on the literal username `a b` with a
trailing CR, mirroring the wire line `AUTH a b` ended by CRLF. -/
theorem auth_preserves_interior_spaces_witness :
    (processLine true 0 ⟨[], 0⟩ [⟨7, [], false⟩] ⟨7, [], false⟩
        ("AUTH ".toList ++ (['a', ' ', 'b'] ++ ['\r']))).self = ⟨7, ['a', ' ', 'b'], true⟩
    ∧ (processLine true 0 ⟨[], 0⟩ [⟨7, [], false⟩] ⟨7, [], false⟩
        ("AUTH ".toList ++ (['a', ' ', 'b'] ++ ['\r']))).replies =
        ["OK Authenticated as ".toList ++ ['a', ' ', 'b']]
    ∧ username_available
        (processLine true 0 ⟨[], 0⟩ [⟨7, [], false⟩] ⟨7, [], false⟩
          ("AUTH ".toList ++ (['a', ' ', 'b'] ++ ['\r']))).clients ['a', ' ', 'b'] = false :=
  auth_preserves_interior_spaces true 0 ⟨[], 0⟩ [⟨7, [], false⟩] 7 []
    ['a', ' ', 'b'] ['\r'] (by decide) (by decide) (by decide) (by decide)
    (by decide) (by decide)

/-- Function `read_line`: the byte loop of the C function over a finite input stream.
`cap` is the room left in the buffer (`max_len - 1 - offset`, checked before
each `recv`); `acc` holds the bytes stored so far, most recent first.  A CR
is skipped without being stored, an LF ends the line, a full buffer ends the
line leaving the rest of the stream unread, and an exhausted stream models
`recv` returning `<= 0`: the partial line is discarded and the caller breaks
out of its loop. -/
def read_line : Nat → List Char → List Char → Option (List Char × List Char)
  | 0, acc, s => some (acc.reverse, s)
  | _ + 1, _, [] => none
  | cap + 1, acc, c :: rest =>
    if c = '\r' then read_line (cap + 1) acc rest
    else if c = '\n' then some (acc.reverse, rest)
    else read_line cap (c :: acc) rest
termination_by cap _ s => s.length

theorem read_line_filter (cap : Nat) (acc s : List Char) :
    read_line cap acc (s.filter (fun c => !(c == '\r'))) =
      (read_line cap acc s).map
        (fun p => (p.1, p.2.filter (fun c => !(c == '\r')))) := by
  induction s generalizing cap acc with
  | nil =>
    cases cap with
    | zero => simp [read_line]
    | succ cap => simp [read_line]
  | cons c rest ih =>
    cases cap with
    | zero => simp [read_line]
    | succ cap =>
      by_cases hc : c = '\r'
      · subst hc
        simpa [read_line, List.filter_cons] using ih (cap + 1) acc
      · by_cases hn : c = '\n'
        · subst hn
          simp [read_line, List.filter_cons]
        · simpa [read_line, List.filter_cons, hc, hn] using ih cap (c :: acc)

theorem read_line_no_cr (cap : Nat) (acc s : List Char)
    (hacc : '\r' ∉ acc) :
    (read_line cap acc s).all (fun p => !(p.1.contains '\r')) = true := by
  induction s generalizing cap acc with
  | nil =>
    cases cap with
    | zero => simp [read_line, hacc]
    | succ cap => simp [read_line]
  | cons c rest ih =>
    cases cap with
    | zero => simp [read_line, hacc]
    | succ cap =>
      by_cases hc : c = '\r'
      · subst hc
        simpa [read_line] using ih (cap + 1) acc hacc
      · by_cases hn : c = '\n'
        · subst hn
          simp [read_line, hc, hacc]
        · have hacc' : '\r' ∉ c :: acc := by
            intro hmem
            rcases List.mem_cons.mp hmem with heq | hmem'
            · exact hc heq.symm
            · exact hacc hmem'
          simpa [read_line, hc, hn] using ih cap (c :: acc) hacc'

/-- C9: carriage returns are stripped wherever they occur before the line
reaches the dispatcher: reading from the CR-free filtering of a stream
yields the same line (with the correspondingly filtered remainder), and a
returned line never contains a CR — so `cmd` ended by CRLF, or containing
stray CRs, is processed exactly like `cmd` ended by a bare LF. -/
theorem read_line_strips_cr (cap : Nat) (acc s : List Char)
    (hacc : '\r' ∉ acc) :
    (read_line cap acc (s.filter (fun c => !(c == '\r'))) =
      (read_line cap acc s).map
        (fun p => (p.1, p.2.filter (fun c => !(c == '\r')))))
    ∧ (read_line cap acc s).all (fun p => !(p.1.contains '\r')) = true :=
  ⟨read_line_filter cap acc s, read_line_no_cr cap acc s hacc⟩

/-- Instance of `read_line_strips_cr` on the stream `GE\rT\r\nX`: same line as `GET\nX`. -/
theorem read_line_strips_cr_witness :
    (read_line 2046 [] (['G', 'E', '\r', 'T', '\r', '\n', 'X'].filter
        (fun c => !(c == '\r'))) =
      (read_line 2046 [] ['G', 'E', '\r', 'T', '\r', '\n', 'X']).map
        (fun p => (p.1, p.2.filter (fun c => !(c == '\r')))))
    ∧ (read_line 2046 [] ['G', 'E', '\r', 'T', '\r', '\n', 'X']).all
        (fun p => !(p.1.contains '\r')) = true :=
  read_line_strips_cr 2046 [] ['G', 'E', '\r', 'T', '\r', '\n', 'X'] (by decide)

/-- The events relevant to the lock discipline claim: acquiring and releasing
`clients_lock`, and invoking the blocking `send` (inside `send_formatted`)
for some session's socket. -/
inductive Ev
  | lockClients
  | unlockClients
  | sendCall (sid : Nat) (line : List Char)
deriving DecidableEq

/-- Event trace of `notify_user_list`: lock; send `USERS_BEGIN`; send one
`USER` line per authenticated session while still holding the lock; unlock;
send `USERS_END`. -/
def notify_user_list_trace (clients : List Session) (self : Session) : List Ev :=
  Ev.lockClients :: Ev.sendCall self.sid "USERS_BEGIN".toList ::
    ((clients.filter (fun s => s.authenticated)).map
        (fun s => Ev.sendCall self.sid ("USER ".toList ++ s.username)) ++
      [Ev.unlockClients, Ev.sendCall self.sid "USERS_END".toList])

/-- Event trace of the registry part of `deliver_message`: lock; look the
receiver up; push the `MESSAGE` frame (still under the lock) when found;
unlock.  The storage append happens before and under a different lock. -/
def deliver_message_trace (clients : List Session)
    (sender receiver body : List Char) : List Ev :=
  Ev.lockClients ::
    ((match find_client_by_name clients receiver with
      | some target =>
        [Ev.sendCall target.sid ("MESSAGE ".toList ++ sender ++ ' ' :: body)]
      | none => []) ++
     [Ev.unlockClients])

/-- Event trace of `broadcast_shutdown_message`: lock; send the `SHUTDOWN`
notice to every authenticated session under the lock; unlock. -/
def broadcast_shutdown_trace (clients : List Session) : List Ev :=
  Ev.lockClients ::
    ((clients.filter (fun s => s.authenticated)).map
        (fun s => Ev.sendCall s.sid "SHUTDOWN Server shutting down...".toList) ++
      [Ev.unlockClients])

def ioUnderLockAux : Nat → List Ev → Bool
  | _, [] => false
  | d, Ev.lockClients :: r => ioUnderLockAux (d + 1) r
  | d, Ev.unlockClients :: r => ioUnderLockAux (d - 1) r
  | d, Ev.sendCall _ _ :: r => decide (0 < d) || ioUnderLockAux d r

/-- Whether some `send` call of the trace happens while `clients_lock` is
held. -/
def ioUnderLock (tr : List Ev) : Bool :=
  ioUnderLockAux 0 tr

/-- C8, counterexample: each of the three routing operations performs a
blocking `send` while holding the registry lock — `notify_user_list` even on
an empty registry (`USERS_BEGIN` goes out under the lock), `deliver_message`
when the receiver is online, `broadcast_shutdown_message` when some
authenticated session exists. -/
theorem registry_lock_io_counterexample :
    ioUnderLock (notify_user_list_trace [] ⟨0, [], true⟩) = true
    ∧ ioUnderLock (deliver_message_trace [⟨1, ['b'], true⟩] ['a'] ['b'] ['h']) = true
    ∧ ioUnderLock (broadcast_shutdown_trace [⟨1, ['b'], true⟩]) = true :=
  ⟨rfl, rfl, rfl⟩

/-- C8, amended: the registry lock is held *across* the blocking socket
sends of the routing operations: every `USERS` listing emits `USERS_BEGIN`
and the `USER` lines under `clients_lock` (only `USERS_END` goes out after
release), a delivery to an online receiver pushes the `MESSAGE` frame under
it, and a shutdown broadcast to a registry with at least one authenticated
session sends under it as well. -/
theorem registry_lock_held_across_sends (clients : List Session) (self : Session)
    (sender receiver body : List Char)
    (hrecv : (find_client_by_name clients receiver).isSome = true)
    (hauth : clients.any (fun s => s.authenticated) = true) :
    ioUnderLock (notify_user_list_trace clients self) = true
    ∧ ioUnderLock (deliver_message_trace clients sender receiver body) = true
    ∧ ioUnderLock (broadcast_shutdown_trace clients) = true := by
  refine ⟨rfl, ?_, ?_⟩
  · obtain ⟨t, ht⟩ := Option.isSome_iff_exists.mp hrecv
    simp [deliver_message_trace, ht, ioUnderLock, ioUnderLockAux]
  · have hex : ∃ x ∈ clients, x.authenticated = true := by simpa using hauth
    have hne : clients.filter (fun s => s.authenticated) ≠ [] := by
      rcases hex with ⟨x, hx, hxa⟩
      intro hnil
      have := List.filter_eq_nil_iff.mp hnil x hx
      simp [hxa] at this
    rcases hfl : clients.filter (fun s => s.authenticated) with _ | ⟨s1, srest⟩
    · exact absurd hfl hne
    · simp [broadcast_shutdown_trace, hfl, ioUnderLock, ioUnderLockAux]

/-- Instance of `registry_lock_held_across_sends` with one authenticated session `b`. -/
theorem registry_lock_held_across_sends_witness :
    ioUnderLock (notify_user_list_trace [⟨1, ['b'], true⟩] ⟨1, ['b'], true⟩) = true
    ∧ ioUnderLock (deliver_message_trace [⟨1, ['b'], true⟩] ['a'] ['b'] ['h']) = true
    ∧ ioUnderLock (broadcast_shutdown_trace [⟨1, ['b'], true⟩]) = true :=
  registry_lock_held_across_sends [⟨1, ['b'], true⟩] ⟨1, ['b'], true⟩ ['a'] ['b'] ['h']
    (by decide) (by decide)
